import Mathlib

/-!
Shallow embedding of the battle-report parser (`src/parser.rs`) of the
wt-battle-report repository.  Parsers are modelled, following the nom
combinators used by the source, as functions from the remaining input (a
list of characters) to `Option (remaining, value)`.  Machine integers are
modelled as `Nat`; the nom numeric parsers' overflow bounds (`u32`, `u8`)
are kept as explicit checks.  Error messages are not modelled: a `none`
result corresponds to a parse error, so the top-level `parse` returns
`Option BattleReport` instead of `Result<BattleReport, Error>`.
-/

set_option maxRecDepth 100000

set_option maxHeartbeats 2000000

abbrev Input := List Char

abbrev P (α : Type) := Input → Option (Input × α)

/-! ### Generic combinators (mirroring the nom combinators used by the source) -/

def pbind {α β : Type} (p : P α) (f : α → P β) : P β := fun inp =>
  match p inp with
  | none => none
  | some (rest, a) => f a rest

def psucceed {α : Type} (a : α) : P α := fun inp => some (inp, a)

def pmap {α β : Type} (p : P α) (f : α → β) : P β := pbind p fun a => psucceed (f a)

def palt {α : Type} (p q : P α) : P α := fun inp =>
  match p inp with
  | some r => some r
  | none => q inp

def popt {α : Type} (p : P α) : P (Option α) := fun inp =>
  match p inp with
  | some (rest, a) => some (rest, some a)
  | none => some (inp, none)

def ppair {α β : Type} (p : P α) (q : P β) : P (α × β) :=
  pbind p fun a => pbind q fun b => psucceed (a, b)

def ppreceded {α β : Type} (p : P α) (q : P β) : P β := pbind p fun _ => q

def pterminated {α β : Type} (p : P α) (q : P β) : P α :=
  pbind p fun a => pbind q fun _ => psucceed a

def pdelimited {α β γ : Type} (p : P α) (q : P β) (r : P γ) : P β :=
  pbind p fun _ => pbind q fun b => pbind r fun _ => psucceed b

def psepPair {α β γ : Type} (p : P α) (s : P β) (q : P γ) : P (α × γ) :=
  pbind p fun a => pbind s fun _ => pbind q fun c => psucceed (a, c)

def pvalue {α β : Type} (b : β) (p : P α) : P β := pmap p fun _ => b

/-- nom `map_parser`: run `q` on the chunk produced by `p`; the chunk's
leftover (if any) is discarded, as in nom. -/
def mapChunk {α : Type} (p : P (List Char)) (q : P α) : P α := fun inp =>
  match p inp with
  | none => none
  | some (rest, chunk) =>
    match q chunk with
    | none => none
    | some (_, a) => some (rest, a)

/-! ### Primitive parsers -/

def ptag (t : List Char) : P (List Char) := fun inp =>
  if t.isPrefixOf inp then some (inp.drop t.length, t) else none

/-- Helper for nom `take_until`: split the input at the first occurrence of
`t`, failing when `t` never occurs. -/
def splitUntil (t : List Char) : Input → Option (List Char × Input)
  | [] => if t.isPrefixOf [] then some ([], []) else none
  | c :: cs =>
    if t.isPrefixOf (c :: cs) then some ([], c :: cs)
    else
      match splitUntil t cs with
      | some (pre, suf) => some (c :: pre, suf)
      | none => none

def takeUntil (t : List Char) : P (List Char) := fun inp =>
  match splitUntil t inp with
  | some (pre, suf) => some (suf, pre)
  | none => none

/-- nom `take_while`: always succeeds, possibly consuming nothing. -/
def takeWhileP (f : Char → Bool) : P (List Char) := fun inp =>
  some (inp.dropWhile f, inp.takeWhile f)

/-- Shared shape of nom `digit1`, `alpha1`, `hex_digit1`, `space1`:
one or more characters satisfying `f`. -/
def many1Chars (f : Char → Bool) : P (List Char) := fun inp =>
  match inp.takeWhile f with
  | [] => none
  | c :: cs => some (inp.dropWhile f, c :: cs)

def isSpaceChar (c : Char) : Bool := c == ' ' || c == '\t'

def isHexChar (c : Char) : Bool :=
  c.isDigit || ('a' ≤ c && c ≤ 'f') || ('A' ≤ c && c ≤ 'F')

def digit1 : P (List Char) := many1Chars Char.isDigit

def alpha1 : P (List Char) := many1Chars Char.isAlpha

def hexDigit1 : P (List Char) := many1Chars isHexChar

def space1 : P (List Char) := many1Chars isSpaceChar

/-- nom `line_ending`: `"\n"` or `"\r\n"`. -/
def lineEnding : P (List Char) := fun inp =>
  match inp with
  | '\n' :: rest => some (rest, ['\n'])
  | '\r' :: '\n' :: rest => some (rest, ['\r', '\n'])
  | _ => none

def natOfDigits (ds : List Char) : Nat :=
  ds.foldl (fun acc c => acc * 10 + (c.toNat - 48)) 0

/-- nom `character::complete::u32`: one or more digits whose value fits in a
`u32`. -/
def pu32 : P Nat := fun inp =>
  match digit1 inp with
  | none => none
  | some (rest, ds) =>
    if natOfDigits ds < 4294967296 then some (rest, natOfDigits ds) else none

/-- nom `character::complete::u8`. -/
def pu8 : P Nat := fun inp =>
  match digit1 inp with
  | none => none
  | some (rest, ds) =>
    if natOfDigits ds < 256 then some (rest, natOfDigits ds) else none

/-! ### Repetition combinators.  nom's `many0`/`many1`/`many_m_n` abort when
an iteration succeeds without consuming input; with that check every
iteration strictly shrinks the input, so a fuel of `input.length + 1` is
always sufficient. -/

def many0Aux {α : Type} (p : P α) : Nat → Input → Option (Input × List α)
  | 0, _ => none
  | fuel+1, inp =>
    match p inp with
    | none => some (inp, [])
    | some (rest, a) =>
      if rest.length < inp.length then
        match many0Aux p fuel rest with
        | some (r2, as) => some (r2, a :: as)
        | none => none
      else none

def pmany0 {α : Type} (p : P α) : P (List α) := fun inp =>
  many0Aux p (inp.length + 1) inp

def pmany1 {α : Type} (p : P α) : P (List α) := fun inp =>
  match pmany0 p inp with
  | some (rest, a :: as) => some (rest, a :: as)
  | _ => none

/-- nom `many_m_n`: at most `mx` repetitions, failing when `p` fails before
`mn` repetitions were read.  As in nom, when `mx = 0` it succeeds with an
empty list. -/
def manyMN {α : Type} (p : P α) : Nat → Nat → Input → Option (Input × List α)
  | _, 0, inp => some (inp, [])
  | mn, mx+1, inp =>
    match p inp with
    | none => if mn = 0 then some (inp, []) else none
    | some (rest, a) =>
      if rest.length < inp.length then
        match manyMN p (mn - 1) mx rest with
        | some (r2, as) => some (r2, a :: as)
        | none => none
      else none

def sepListAux {α β : Type} (sep : P β) (p : P α) : Nat → Input → Option (Input × List α)
  | 0, _ => none
  | fuel+1, inp =>
    match sep inp with
    | none => some (inp, [])
    | some (i1, _) =>
      if i1.length < inp.length then
        match p i1 with
        | none => some (inp, [])
        | some (i2, a) =>
          match sepListAux sep p fuel i2 with
          | some (r, as) => some (r, a :: as)
          | none => none
      else none

/-- nom `separated_list1`. -/
def psepList1 {α β : Type} (sep : P β) (p : P α) : P (List α) := fun inp =>
  match p inp with
  | none => none
  | some (i1, a) =>
    match sepListAux sep p (i1.length + 1) i1 with
    | some (r, as) => some (r, a :: as)
    | none => none

/-! ### Data model (as constructed by `src/parser.rs`) -/

structure Reward where
  silverlions : Nat
  research : Nat
deriving DecidableEq, Repr

structure Row where
  time : Nat
  vehicle : List Char
  enemy_vehicle : List Char
  reward : Reward
deriving DecidableEq, Repr

structure Table where
  name : List Char
  rows : List Row
deriving DecidableEq, Repr

structure Event where
  time : Nat
  kind : List Char
  vehicle : List Char
  enemy : Option (List Char)
  reward : Reward
deriving DecidableEq, Repr

structure Award where
  time : Nat
  name : List Char
  reward : Reward
deriving DecidableEq, Repr

structure Vehicle where
  name : List Char
  activity : Nat
  time_played : Nat
  reward : Reward
deriving DecidableEq, Repr

structure VehicleResearch where
  name : List Char
  research : Nat
deriving DecidableEq, Repr

structure ModificationResearch where
  vehicle : List Char
  name : List Char
  research : Nat
deriving DecidableEq, Repr

inductive BattleResult where
  | win
  | loss
deriving DecidableEq, Repr

structure BattleReport where
  session_id : List Char
  result : BattleResult
  mission_name : List Char
  events : List Event
  awards : List Award
  reward_for_winning : Option Reward
  other_awards : Reward
  vehicles : List Vehicle
  activity : Nat
  damaged_vehicles : List (List Char)
  automatic_repair : Nat
  automatic_purchases : Nat
  vehicle_research : List VehicleResearch
  modification_research : List ModificationResearch
  earned_rewards : Reward
  balance : Reward
deriving DecidableEq, Repr

/-! ### The parser, function by function after `src/parser.rs` -/

def INDENT : List Char := [' ', ' ', ' ', ' ']

def row_separator : P Unit :=
  pvalue () (ppair (ptag INDENT) (pmany0 space1))

def row_ending : P Unit :=
  pvalue () (ppair (pmany0 space1) lineEnding)

/-- `timestamp` computes `hours * 60 + minutes` on `u32`; the wrapping
(release-mode) semantics of that arithmetic is kept as an explicit
`% 2^32`. -/
def timestamp : P Nat :=
  pmap (psepPair pu32 (ptag [':']) pu32) (fun hm => (hm.1 * 60 + hm.2) % 4294967296)

def parse_silverlions_simple : P Nat :=
  pterminated pu32 (ptag (" SL".data))

/-- One `" + (<label>)<digits>"` term of an itemized reward. -/
def bonus_term : P ((List Char × List Char) × List Char) :=
  ppair (ppair (ptag (" + ".data)) (pdelimited (ptag ['(']) alpha1 (ptag [')']))) digit1

def parse_silverlions_complex : P Nat :=
  pbind digit1 fun _ =>
  pbind (pmany1 bonus_term) fun _ =>
  ppreceded (ptag (" = ".data)) parse_silverlions_simple

def parse_silverlions : P Nat :=
  palt parse_silverlions_simple parse_silverlions_complex

def parse_research_points_simple : P Nat :=
  pterminated pu32 (ptag (" RP".data))

def parse_research_points_complex : P Nat :=
  pbind digit1 fun _ =>
  pbind (pmany1 bonus_term) fun _ =>
  ppreceded (ptag (" = ".data)) parse_research_points_simple

def parse_research_points : P Nat :=
  palt parse_research_points_simple parse_research_points_complex

def parse_crp : P Nat :=
  pterminated pu32 (ptag (" CRP".data))

def parse_reward : P Reward :=
  pmap
    (palt
      (ppair parse_silverlions
        (pmap (popt (ppreceded row_separator parse_research_points)) (fun rp => rp.getD 0)))
      (ppair (psucceed 0) parse_research_points))
    (fun sr => { silverlions := sr.1, research := sr.2 })

def table_header : P (List Char × Nat × Reward) :=
  pbind (pterminated (takeUntil INDENT) row_separator) fun name =>
  pbind (pterminated pu32 row_separator) fun count =>
  pbind (pterminated parse_reward row_ending) fun reward =>
  psucceed (name, count, reward)

def table_row : P Row :=
  pbind (ppreceded (ptag INDENT) (pterminated timestamp row_separator)) fun time =>
  pbind (pterminated (takeUntil INDENT) row_separator) fun vehicle =>
  pbind (pterminated (takeUntil INDENT) row_separator) fun enemy_vehicle =>
  pbind (popt (ppair (ptag ['×']) row_separator)) fun _ =>
  pbind (pterminated parse_reward row_ending) fun reward =>
  psucceed { time, vehicle, enemy_vehicle, reward }

def table : P Table :=
  pbind table_header fun hdr =>
  pbind (manyMN table_row hdr.2.1 hdr.2.1) fun rows =>
  pbind lineEnding fun _ =>
  psucceed { name := hdr.1, rows }

def eventOfRow (kind : List Char) (r : Row) : Event :=
  { time := r.time, kind, vehicle := r.vehicle, enemy := some r.enemy_vehicle,
    reward := r.reward }

def parse_events : P (List Event) :=
  pbind (pmany0 table) fun tables =>
  psucceed ((tables.map (fun t => t.rows.map (eventOfRow t.name))).flatten)

def short_row : P (Nat × List Char × Reward) :=
  pbind (ppreceded (ptag INDENT) (pterminated timestamp row_separator)) fun time =>
  pbind (pterminated (takeUntil INDENT) row_separator) fun name =>
  pbind (pterminated parse_reward row_ending) fun reward =>
  psucceed (time, name, reward)

def awardOfRow (r : Nat × List Char × Reward) : Award :=
  { time := r.1, name := r.2.1, reward := r.2.2 }

def award_table : P (List Award) :=
  pbind (ppreceded table_header (pmany1 short_row)) fun rows =>
  pbind lineEnding fun _ =>
  psucceed (rows.map awardOfRow)

/-- The inline `Time Played` header tuple of `vehicle_tables`. -/
def time_played_header : P Unit :=
  pvalue ()
    (ppair
      (ppair
        (ppair (ppair (ptag ("Time Played".data)) (ppair (pmany1 space1) digit1)) row_separator)
        parse_research_points)
      row_ending)

/-- One row of the inline `many1(tuple(...))` of the `Time Played` table:
(name, activity, time played, reward). -/
def time_played_row : P (List Char × Nat × Nat × Nat) :=
  pbind (ppreceded (ptag INDENT) (pterminated (takeUntil INDENT) row_separator)) fun name =>
  pbind (pterminated (pterminated pu8 (ptag ['%'])) row_separator) fun activity =>
  pbind (pterminated timestamp row_separator) fun time_played =>
  pbind (pterminated parse_research_points row_ending) fun reward =>
  psucceed (name, activity, time_played, reward)

/-- The closure of the `zip(...).map(...)` in `vehicle_tables`: the name and
the currency come from the activity-time row, the activity percentage and
time played from the time-played row, and the two research figures are added
on `u32` — the wrapping (release-mode) semantics of that addition is kept as
an explicit `% 2^32`. -/
def mkVehicle (a : Nat × List Char × Reward) (t : List Char × Nat × Nat × Nat) : Vehicle :=
  { name := a.2.1, activity := t.2.1, time_played := t.2.2.1,
    reward := { silverlions := a.2.2.silverlions,
                research := (a.2.2.research + t.2.2.2) % 4294967296 } }

def vehicle_tables : P (List Vehicle) :=
  pbind (ppreceded table_header (pmany1 short_row)) fun activity_rows =>
  pbind lineEnding fun _ =>
  pbind time_played_header fun _ =>
  pbind (pmany1 time_played_row) fun time_played_rows =>
  pbind lineEnding fun _ =>
  psucceed ((activity_rows.zip time_played_rows).map (fun p => mkVehicle p.1 p.2))

def parse_other_awards : P Reward :=
  pdelimited (ppair (ptag ("Other awards".data)) row_separator) parse_reward
    (ppair row_ending lineEnding)

def parse_reward_for_winning : P Reward :=
  pdelimited (ppair (ptag ("Reward for winning".data)) row_separator) parse_reward
    (ppair row_ending lineEnding)

def isVehicleNameChar (c : Char) : Bool :=
  c.isLower || c.isUpper || c.isDigit || c == ' ' ||
  c == '#' || c == '&' || c == '\'' || c == '(' || c == ')' ||
  c == ',' || c == '-' || c == '.' || c == '/' || c == '_'

def vehicle_name : P (List Char) := takeWhileP isVehicleNameChar

def parse_earned : P Reward :=
  pmap
    (pdelimited (ptag ("Earned: ".data))
      (psepPair parse_silverlions_simple (ptag (", ".data)) parse_crp) lineEnding)
    (fun p => { silverlions := p.1, research := p.2 })

def parse_activity : P Nat :=
  pdelimited (ptag ("Activity: ".data)) (pterminated pu8 (ptag ['%'])) lineEnding

def parse_damaged_vehicles : P (List (List Char)) :=
  pdelimited (ptag ("Damaged Vehicles: ".data)) (psepList1 (ptag (", ".data)) vehicle_name)
    lineEnding

def parse_automatic_repair : P Nat :=
  pdelimited (ptag ("Automatic repair of all vehicles: -".data)) parse_silverlions_simple
    lineEnding

def parse_automatic_purchase : P Nat :=
  pdelimited (ptag ("Automatic purchasing of ammo and \"Crew Replenishment\": -".data))
    parse_silverlions_simple lineEnding

def parse_vehicle_research : P VehicleResearch :=
  pmap
    (pterminated (psepPair vehicle_name (ptag (": ".data)) parse_research_points_simple)
      lineEnding)
    (fun p => { name := p.1, research := p.2 })

def parse_researched_units : P (List VehicleResearch) :=
  pdelimited (ppair (ptag ("Researched unit: ".data)) lineEnding)
    (pmany1 parse_vehicle_research) lineEnding

def parse_modification_research : P ModificationResearch :=
  pmap
    (pterminated
      (pbind (mapChunk (takeUntil (" - ".data)) vehicle_name) fun vehicle =>
       pbind (ptag (" - ".data)) fun _ =>
       pbind (takeWhileP (fun c => c.isAlphanum || c == ' ')) fun name =>
       pbind (ptag (": ".data)) fun _ =>
       pbind parse_research_points_simple fun research =>
       psucceed (vehicle, name, research))
      lineEnding)
    (fun p => { vehicle := p.1, name := p.2.1, research := p.2.2 })

def parse_researched_modifications : P (List ModificationResearch) :=
  pdelimited (ppair (ptag ("Researching progress: ".data)) lineEnding)
    (pmany1 parse_modification_research) lineEnding

def parse_used_items : P (List Char) :=
  ppreceded (ppair (ptag ("Used items: ".data)) lineEnding) (takeUntil ("Session: ".data))

def parse_session_id : P (List Char) :=
  pdelimited (ptag ("Session: ".data)) hexDigit1 lineEnding

def parse_total : P (Reward × Nat) :=
  pmap
    (ppreceded (ptag ("Total: ".data))
      (pbind parse_silverlions_simple fun sl =>
       pbind (ptag (", ".data)) fun _ =>
       pbind parse_crp fun crp =>
       pbind (ptag (", ".data)) fun _ =>
       pbind parse_research_points_simple fun rp =>
       psucceed (sl, crp, rp)))
    (fun t => ({ silverlions := t.1, research := t.2.2 }, t.2.1))

def battle_result : P BattleResult :=
  palt (pmap (ptag ("Victory".data)) (fun _ => BattleResult.win))
    (pmap (ptag ("Defeat".data)) (fun _ => BattleResult.loss))

def result_line : P (BattleResult × List Char) :=
  pbind battle_result fun result =>
  pbind (ptag (" in the ".data)) fun _ =>
  pbind (takeUntil (" mission!".data)) fun mission =>
  pbind (ptag (" mission!".data)) fun _ =>
  pbind lineEnding fun _ =>
  pbind lineEnding fun _ =>
  psucceed (result, mission)

def battle_report : P BattleReport :=
  pbind result_line fun rm =>
  pbind parse_events fun events =>
  pbind award_table fun awards =>
  pbind vehicle_tables fun vehicles =>
  pbind (popt parse_reward_for_winning) fun reward_for_winning =>
  pbind parse_other_awards fun other_awards =>
  pbind parse_earned fun earned_rewards =>
  pbind parse_activity fun activity =>
  pbind parse_damaged_vehicles fun damaged_vehicles =>
  pbind parse_automatic_repair fun automatic_repair =>
  pbind parse_automatic_purchase fun automatic_purchases =>
  pbind lineEnding fun _ =>
  pbind (popt parse_researched_units) fun vehicle_research =>
  pbind (popt parse_researched_modifications) fun modification_research =>
  pbind (popt parse_used_items) fun _ =>
  pbind parse_session_id fun session_id =>
  pbind parse_total fun tot =>
  psucceed
    { session_id
      result := rm.1
      mission_name := rm.2
      events
      awards
      reward_for_winning
      other_awards
      vehicles
      activity
      damaged_vehicles
      automatic_repair
      automatic_purchases
      vehicle_research := vehicle_research.getD []
      modification_research := modification_research.getD []
      earned_rewards
      balance := tot.1 }

def parse (input : Input) : Option BattleReport :=
  (battle_report input).map (fun x => x.2)

/-! ### Inversion and evaluation lemmas for the combinators -/

theorem pbind_some {α β : Type} {p : P α} {f : α → P β} {inp : Input} {r : Input × β} :
    pbind p f inp = some r ↔ ∃ mid a, p inp = some (mid, a) ∧ f a mid = some r := by
  unfold pbind
  cases h : p inp with
  | none => simp
  | some x =>
    cases x with
    | mk mid a =>
      simp only [Option.some.injEq, Prod.mk.injEq]
      constructor
      · intro hf; exact ⟨mid, a, ⟨rfl, rfl⟩, hf⟩
      · rintro ⟨m, b, ⟨rfl, rfl⟩, hf⟩; exact hf

theorem psucceed_some {α : Type} {a : α} {inp : Input} {r : Input × α} :
    psucceed a inp = some r ↔ r = (inp, a) := by
  unfold psucceed
  exact ⟨fun h => (Option.some.inj h).symm, fun h => by rw [h]⟩

theorem pbind_eval {α β : Type} {p : P α} {inp mid : Input} {a : α} (f : α → P β)
    (h : p inp = some (mid, a)) : pbind p f inp = f a mid := by
  unfold pbind; rw [h]

theorem pbind_none {α β : Type} {p : P α} {inp : Input} (f : α → P β)
    (h : p inp = none) : pbind p f inp = none := by
  unfold pbind; rw [h]

theorem palt_first {α : Type} {p : P α} (q : P α) {inp : Input} {r : Input × α}
    (h : p inp = some r) : palt p q inp = some r := by
  unfold palt; rw [h]

theorem popt_eval_some {α : Type} {p : P α} {inp mid : Input} {a : α}
    (h : p inp = some (mid, a)) : popt p inp = some (mid, some a) := by
  unfold popt; rw [h]

theorem popt_eval_none {α : Type} {p : P α} {inp : Input}
    (h : p inp = none) : popt p inp = some (inp, none) := by
  unfold popt; rw [h]

theorem ptag_eq_some {t inp mid v : List Char} :
    ptag t inp = some (mid, v) ↔ v = t ∧ inp = t ++ mid := by
  unfold ptag
  by_cases h : t.isPrefixOf inp
  · rw [if_pos h]
    rw [List.isPrefixOf_iff_prefix] at h
    obtain ⟨s, hs⟩ := h
    subst hs
    constructor
    · intro he
      simp only [Option.some.injEq, Prod.mk.injEq] at he
      refine ⟨he.2.symm, ?_⟩
      rw [List.drop_left] at he
      rw [he.1]
    · rintro ⟨rfl, h2⟩
      have hsm : s = mid := List.append_cancel_left h2
      rw [List.drop_left, hsm]
  · rw [if_neg h]
    constructor
    · intro he; exact absurd he (by simp)
    · rintro ⟨rfl, rfl⟩
      exact absurd (List.isPrefixOf_iff_prefix.mpr ⟨mid, rfl⟩) h

theorem ptag_append (t r : List Char) : ptag t (t ++ r) = some (r, t) :=
  ptag_eq_some.mpr ⟨rfl, rfl⟩

theorem ptag_none {t inp : List Char} (h : t.isPrefixOf inp = false) : ptag t inp = none := by
  unfold ptag
  simp [h]

/-! ### Lemmas about the character-class parsers -/

/-- `true` when the input does not start with a character satisfying `f`. -/
def firstNot (f : Char → Bool) : Input → Bool
  | [] => true
  | c :: _ => !f c

theorem takeWhile_app {f : Char → Bool} {ds rest : List Char}
    (h1 : ds.all f = true) (h2 : firstNot f rest = true) :
    (ds ++ rest).takeWhile f = ds := by
  induction ds with
  | nil =>
    simp only [List.nil_append]
    cases rest with
    | nil => rfl
    | cons c cs =>
      simp only [firstNot, Bool.not_eq_true'] at h2
      simp [List.takeWhile_cons, h2]
  | cons d ds ih =>
    simp only [List.all_cons, Bool.and_eq_true] at h1
    simp [List.takeWhile_cons, h1.1, ih h1.2]

theorem dropWhile_app {f : Char → Bool} {ds rest : List Char}
    (h1 : ds.all f = true) (h2 : firstNot f rest = true) :
    (ds ++ rest).dropWhile f = rest := by
  induction ds with
  | nil =>
    simp only [List.nil_append]
    cases rest with
    | nil => rfl
    | cons c cs =>
      simp only [firstNot, Bool.not_eq_true'] at h2
      simp [List.dropWhile_cons, h2]
  | cons d ds ih =>
    simp only [List.all_cons, Bool.and_eq_true] at h1
    simp [List.dropWhile_cons, h1.1, ih h1.2]

theorem many1Chars_app {f : Char → Bool} {ds rest : List Char}
    (h0 : ds ≠ []) (h1 : ds.all f = true) (h2 : firstNot f rest = true) :
    many1Chars f (ds ++ rest) = some (rest, ds) := by
  unfold many1Chars
  rw [takeWhile_app h1 h2, dropWhile_app h1 h2]
  cases ds with
  | nil => exact absurd rfl h0
  | cons d ds => rfl

theorem many1Chars_fail {f : Char → Bool} {inp : List Char}
    (h : firstNot f inp = true) : many1Chars f inp = none := by
  unfold many1Chars
  cases inp with
  | nil => rfl
  | cons c cs =>
    simp only [firstNot, Bool.not_eq_true'] at h
    simp [List.takeWhile_cons, h]

theorem takeWhile_all (f : Char → Bool) (l : List Char) : (l.takeWhile f).all f = true := by
  induction l with
  | nil => rfl
  | cons c cs ih =>
    rw [List.takeWhile_cons]
    by_cases h : f c
    · simp [h, ih]
    · simp [h]

theorem many1Chars_inv {f : Char → Bool} {inp rest v : List Char}
    (h : many1Chars f inp = some (rest, v)) : v ≠ [] ∧ v.all f = true := by
  unfold many1Chars at h
  cases he : inp.takeWhile f with
  | nil => rw [he] at h; exact absurd h (by simp)
  | cons c cs =>
    rw [he] at h
    obtain ⟨h1, h2⟩ := Prod.mk.injEq .. ▸ Option.some.inj h
    constructor
    · rw [← h2]; simp
    · rw [← h2, ← he]; exact takeWhile_all f inp

theorem pu32_app {ds rest : List Char}
    (h0 : ds ≠ []) (h1 : ds.all Char.isDigit = true) (h2 : firstNot Char.isDigit rest = true)
    (h3 : natOfDigits ds < 4294967296) :
    pu32 (ds ++ rest) = some (rest, natOfDigits ds) := by
  unfold pu32 digit1
  rw [many1Chars_app h0 h1 h2]
  simp [h3]

theorem pu8_app {ds rest : List Char}
    (h0 : ds ≠ []) (h1 : ds.all Char.isDigit = true) (h2 : firstNot Char.isDigit rest = true)
    (h3 : natOfDigits ds < 256) :
    pu8 (ds ++ rest) = some (rest, natOfDigits ds) := by
  unfold pu8 digit1
  rw [many1Chars_app h0 h1 h2]
  simp [h3]

/-! ### Lemmas about the repetition combinators -/

theorem many0Aux_stop {α : Type} {p : P α} :
    ∀ {fuel : Nat} {inp stop : Input} {rows : List α},
      many0Aux p fuel inp = some (stop, rows) → p stop = none := by
  intro fuel
  induction fuel with
  | zero => intro inp stop rows h; exact absurd h (by simp [many0Aux])
  | succ n ih =>
    intro inp stop rows h
    unfold many0Aux at h
    cases h1 : p inp with
    | none =>
      rw [h1] at h
      simp only [Option.some.injEq, Prod.mk.injEq] at h
      rw [← h.1]; exact h1
    | some x =>
      obtain ⟨rest, a⟩ := x
      rw [h1] at h
      dsimp only at h
      by_cases hl : rest.length < inp.length
      · rw [if_pos hl] at h
        cases h2 : many0Aux p n rest with
        | none => rw [h2] at h; exact absurd h (by simp)
        | some y =>
          obtain ⟨r2, as⟩ := y
          rw [h2] at h
          simp only [Option.some.injEq, Prod.mk.injEq] at h
          exact h.1 ▸ ih h2
      · rw [if_neg hl] at h
        exact absurd h (by simp)

theorem many0Aux_fuel {α : Type} {p : P α} :
    ∀ (f1 f2 : Nat) (inp : Input), inp.length < f1 → inp.length < f2 →
      many0Aux p f1 inp = many0Aux p f2 inp := by
  intro f1
  induction f1 with
  | zero => intro f2 inp h1 h2; omega
  | succ n ih =>
    intro f2 inp h1 h2
    cases f2 with
    | zero => omega
    | succ m =>
      unfold many0Aux
      cases hp : p inp with
      | none => rfl
      | some x =>
        obtain ⟨rest, a⟩ := x
        dsimp only
        by_cases hl : rest.length < inp.length
        · rw [if_pos hl, if_pos hl]
          rw [ih m rest (by omega) (by omega)]
        · rw [if_neg hl, if_neg hl]

theorem pmany0_step {α : Type} {p : P α} {inp rest : Input} {a : α}
    (h : p inp = some (rest, a)) (hl : rest.length < inp.length) :
    pmany0 p inp = (pmany0 p rest).map (fun x => (x.1, a :: x.2)) := by
  unfold pmany0
  cases h2 : many0Aux p (rest.length + 1) rest with
  | none =>
    unfold many0Aux
    rw [h]
    dsimp only
    rw [if_pos hl, many0Aux_fuel (List.length inp) (rest.length + 1) rest (by omega) (by omega),
      h2]
    rfl
  | some y =>
    obtain ⟨r2, as⟩ := y
    unfold many0Aux
    rw [h]
    dsimp only
    rw [if_pos hl, many0Aux_fuel (List.length inp) (rest.length + 1) rest (by omega) (by omega),
      h2]
    rfl

theorem pmany0_fail {α : Type} {p : P α} {inp : Input}
    (h : p inp = none) : pmany0 p inp = some (inp, []) := by
  unfold pmany0 many0Aux
  rw [h]

theorem manyMN_exact_length {α : Type} {p : P α} :
    ∀ {R : Nat} {inp rest : Input} {out : List α},
      manyMN p R R inp = some (rest, out) → out.length = R := by
  intro R
  induction R with
  | zero =>
    intro inp rest out h
    unfold manyMN at h
    simp only [Option.some.injEq, Prod.mk.injEq] at h
    rw [← h.2]; rfl
  | succ n ih =>
    intro inp rest out h
    unfold manyMN at h
    cases hp : p inp with
    | none => rw [hp] at h; simp at h
    | some x =>
      obtain ⟨mid, a⟩ := x
      rw [hp] at h
      dsimp only at h
      by_cases hl : mid.length < inp.length
      · rw [if_pos hl] at h
        simp only [Nat.add_sub_cancel] at h
        cases h2 : manyMN p n n mid with
        | none => rw [h2] at h; exact absurd h (by simp)
        | some y =>
          obtain ⟨r2, as⟩ := y
          rw [h2] at h
          simp only [Option.some.injEq, Prod.mk.injEq] at h
          rw [← h.2]
          simp [ih h2]
      · rw [if_neg hl] at h
        exact absurd h (by simp)

theorem many0Aux_short_manyMN {α : Type} {p : P α} :
    ∀ {fuel : Nat} {inp stop : Input} {rows : List α} {R : Nat},
      many0Aux p fuel inp = some (stop, rows) → rows.length < R →
      manyMN p R R inp = none := by
  intro fuel
  induction fuel with
  | zero => intro inp stop rows R h _; exact absurd h (by simp [many0Aux])
  | succ n ih =>
    intro inp stop rows R h hlt
    unfold many0Aux at h
    cases hp : p inp with
    | none =>
      rw [hp] at h
      simp only [Option.some.injEq, Prod.mk.injEq] at h
      obtain ⟨R', rfl⟩ : ∃ R', R = R' + 1 := by
        cases R with
        | zero => omega
        | succ k => exact ⟨k, rfl⟩
      unfold manyMN
      rw [hp]
      simp
    | some x =>
      obtain ⟨rest, a⟩ := x
      rw [hp] at h
      dsimp only at h
      by_cases hl : rest.length < inp.length
      · rw [if_pos hl] at h
        cases h2 : many0Aux p n rest with
        | none => rw [h2] at h; exact absurd h (by simp)
        | some y =>
          obtain ⟨r2, as⟩ := y
          rw [h2] at h
          simp only [Option.some.injEq, Prod.mk.injEq] at h
          obtain ⟨R', rfl⟩ : ∃ R', R = R' + 1 := by
            cases R with
            | zero => omega
            | succ k => exact ⟨k, rfl⟩
          unfold manyMN
          rw [hp]
          dsimp only
          rw [if_pos hl]
          simp only [Nat.add_sub_cancel]
          have has : rows = a :: as := h.2.symm
          have hlen : as.length < R' := by
            rw [has] at hlt
            simp at hlt
            omega
          rw [ih h2 hlen]
      · rw [if_neg hl] at h
        exact absurd h (by simp)

theorem many0Aux_long_manyMN {α : Type} {p : P α} :
    ∀ {R : Nat} {fuel : Nat} {inp stop : Input} {rows : List α},
      many0Aux p fuel inp = some (stop, rows) → R < rows.length →
      ∃ mid rest2 a, manyMN p R R inp = some (mid, rows.take R) ∧ p mid = some (rest2, a) := by
  intro R
  induction R with
  | zero =>
    intro fuel inp stop rows h hlt
    cases fuel with
    | zero => exact absurd h (by simp [many0Aux])
    | succ n =>
      unfold many0Aux at h
      cases hp : p inp with
      | none =>
        rw [hp] at h
        simp only [Option.some.injEq, Prod.mk.injEq] at h
        rw [← h.2] at hlt
        simp at hlt
      | some x =>
        obtain ⟨rest, a⟩ := x
        exact ⟨inp, rest, a, by unfold manyMN; simp, hp⟩
  | succ k ih =>
    intro fuel inp stop rows h hlt
    cases fuel with
    | zero => exact absurd h (by simp [many0Aux])
    | succ n =>
      unfold many0Aux at h
      cases hp : p inp with
      | none =>
        rw [hp] at h
        simp only [Option.some.injEq, Prod.mk.injEq] at h
        rw [← h.2] at hlt
        simp at hlt
      | some x =>
        obtain ⟨rest, a⟩ := x
        rw [hp] at h
        dsimp only at h
        by_cases hl : rest.length < inp.length
        · rw [if_pos hl] at h
          cases h2 : many0Aux p n rest with
          | none => rw [h2] at h; exact absurd h (by simp)
          | some y =>
            obtain ⟨r2, as⟩ := y
            rw [h2] at h
            simp only [Option.some.injEq, Prod.mk.injEq] at h
            have has : rows = a :: as := h.2.symm
            have hlt' : k < as.length := by
              rw [has] at hlt
              simp at hlt
              omega
            obtain ⟨mid, rest2, b, hmn, hpm⟩ := ih h2 hlt'
            refine ⟨mid, rest2, b, ?_, hpm⟩
            unfold manyMN
            rw [hp]
            dsimp only
            rw [if_pos hl]
            simp only [Nat.add_sub_cancel]
            rw [hmn, has]
            rfl
        · rw [if_neg hl] at h
          exact absurd h (by simp)

theorem pmany1_some {α : Type} {p : P α} {inp : Input} {r : Input × List α} :
    pmany1 p inp = some r ↔ pmany0 p inp = some r ∧ r.2 ≠ [] := by
  unfold pmany1
  cases h : pmany0 p inp with
  | none => simp
  | some y =>
    obtain ⟨rest, l⟩ := y
    cases l with
    | nil =>
      simp only [ne_eq]
      constructor
      · intro hc; exact absurd hc (by simp)
      · rintro ⟨h1, h2⟩
        obtain rfl := Option.some.inj h1
        simp at h2
    | cons a as =>
      simp only [Option.some.injEq, ne_eq]
      constructor
      · intro h1; rw [← h1]; exact ⟨rfl, by simp⟩
      · rintro ⟨h1, _⟩; rw [h1]

/-! ### Claim C1: the generic detail-row table consumes exactly the declared
number of rows -/

theorem table_row_head {inp : Input} {r : Input × Row} (h : table_row inp = some r) :
    ∃ t, inp = ' ' :: t := by
  unfold table_row at h
  rw [pbind_some] at h
  obtain ⟨mid, time, h1, _⟩ := h
  unfold ppreceded at h1
  rw [pbind_some] at h1
  obtain ⟨m2, v, htag, _⟩ := h1
  rw [ptag_eq_some] at htag
  exact ⟨' ' :: ' ' :: ' ' :: m2, by rw [htag.2]; rfl⟩

theorem lineEnding_space {t : Input} : lineEnding (' ' :: t) = none := rfl

/-- Shape of a successful `table` parse: a header declaring exactly
`t.rows.length` rows, that many rows, then a blank line. -/
def tableExact (input rest : Input) (t : Table) : Prop :=
  ∃ mid mid2 rew e,
    table_header input = some (mid, (t.name, t.rows.length, rew)) ∧
    manyMN table_row t.rows.length t.rows.length mid = some (mid2, t.rows) ∧
    lineEnding mid2 = some (rest, e)

/-- C1: for every detail-row table whose header declares row count `R`, a
successful `table` parse consumes exactly `R` rows followed by a blank line;
when the text under the header offers `R - 1` (respectively `R + 1`)
well-formed rows before the row parser fails, `table` fails. -/
theorem c1_table_consumes_declared_count :
    (∀ input rest t, table input = some (rest, t) → tableExact input rest t) ∧
    (∀ input mid name R rew rows stop,
      table_header input = some (mid, (name, R, rew)) →
      pmany0 table_row mid = some (stop, rows) → rows.length + 1 = R →
      table input = none) ∧
    (∀ input mid name R rew rows stop,
      table_header input = some (mid, (name, R, rew)) →
      pmany0 table_row mid = some (stop, rows) → rows.length = R + 1 →
      table input = none) := by
  refine ⟨?_, ?_, ?_⟩
  · intro input rest t h
    unfold table at h
    rw [pbind_some] at h
    obtain ⟨mid, hdr, h1, h⟩ := h
    obtain ⟨name, count, rew⟩ := hdr
    dsimp only at h
    rw [pbind_some] at h
    obtain ⟨mid2, rows, h2, h⟩ := h
    rw [pbind_some] at h
    obtain ⟨mid3, e, h3, h⟩ := h
    rw [psucceed_some] at h
    simp only [Prod.mk.injEq] at h
    obtain ⟨hrest, ht⟩ := h
    have hlen : rows.length = count := manyMN_exact_length h2
    subst hrest
    subst ht
    refine ⟨mid, mid2, rew, e, ?_, ?_, ?_⟩
    · dsimp only
      rw [hlen]
      exact h1
    · dsimp only
      rw [hlen]
      exact h2
    · exact h3
  · intro input mid name R rew rows stop h1 h0 hR
    unfold table
    rw [pbind_eval _ h1]
    try dsimp only
    exact pbind_none _ (many0Aux_short_manyMN h0 (by omega))
  · intro input mid name R rew rows stop h1 h0 hR
    have hgt : R < rows.length := by omega
    obtain ⟨mid', rest2, b, hmn, hpm⟩ := many0Aux_long_manyMN h0 hgt
    obtain ⟨tl, htl⟩ := table_row_head hpm
    unfold table
    rw [pbind_eval _ h1]
    try dsimp only
    rw [pbind_eval _ hmn]
    try dsimp only
    exact pbind_none _ (by rw [htl]; exact lineEnding_space)

def c1okStr : Input := "A    1    1 SL    \n    0:01    B    C    1 SL\n\n".data

def c1lessStr : Input := "A    2    1 SL    \n    0:01    B    C    1 SL\n\n".data

def c1moreStr : Input :=
  "A    1    2 SL    \n    0:01    B    C    1 SL\n    0:02    B    C    1 SL\n\n".data

/-- Witness for C1 at concrete inputs: a header declaring 1 row over one row
parses exactly; headers declaring 2 rows over 1 row, and 1 row over 2 rows,
both fail. -/
theorem c1_table_consumes_declared_count_witness :
    tableExact c1okStr []
      { name := ['A'],
        rows := [{ time := 1, vehicle := ['B'], enemy_vehicle := ['C'],
                   reward := { silverlions := 1, research := 0 } }] } ∧
    table c1lessStr = none ∧ table c1moreStr = none :=
  ⟨c1_table_consumes_declared_count.1 c1okStr []
      { name := ['A'],
        rows := [{ time := 1, vehicle := ['B'], enemy_vehicle := ['C'],
                   reward := { silverlions := 1, research := 0 } }] } rfl,
   c1_table_consumes_declared_count.2.1 c1lessStr
      ("    0:01    B    C    1 SL\n\n".data) ['A'] 2 { silverlions := 1, research := 0 }
      [{ time := 1, vehicle := ['B'], enemy_vehicle := ['C'],
         reward := { silverlions := 1, research := 0 } }] ['\n'] rfl rfl rfl,
   c1_table_consumes_declared_count.2.2 c1moreStr
      ("    0:01    B    C    1 SL\n    0:02    B    C    1 SL\n\n".data) ['A'] 1
      { silverlions := 2, research := 0 }
      [{ time := 1, vehicle := ['B'], enemy_vehicle := ['C'],
         reward := { silverlions := 1, research := 0 } },
       { time := 2, vehicle := ['B'], enemy_vehicle := ['C'],
         reward := { silverlions := 1, research := 0 } }] ['\n'] rfl rfl rfl⟩

/-! ### Claim C2: the awards table ignores the declared row count -/

/-- Shape of a successful `award_table` parse: a header (whose declared row
count is not consulted), one or more short rows read greedily, then a blank
line. -/
def awardsShape (input rest : Input) (aws : List Award) : Prop :=
  ∃ mid hdr mid2 rows e,
    table_header input = some (mid, hdr) ∧
    pmany1 short_row mid = some (mid2, rows) ∧
    lineEnding mid2 = some (rest, e) ∧
    aws = rows.map awardOfRow

def c2cexStr : Input := "Awards    2    100 SL    \n    3:46    Intel    100 SL\n\n".data

/-- C2 counterexample: the awards-table header declares 2 rows but only one
short row is present, yet `award_table` succeeds with one award instead of
failing on the mismatch. -/
theorem c2_declared_count_mismatch_accepted :
    table_header c2cexStr =
      some ("    3:46    Intel    100 SL\n\n".data,
        ("Awards".data, 2, { silverlions := 100, research := 0 })) ∧
    award_table c2cexStr =
      some ([], [{ time := 226, name := "Intel".data,
                   reward := { silverlions := 100, research := 0 } }]) :=
  ⟨rfl, rfl⟩

/-- C2 (amended): `award_table` does not consume a declared number of rows:
after the header it reads one or more short rows greedily (`many1`),
regardless of the row count the header declares, and then requires a blank
line; the declared count is never compared with the number of rows read. -/
theorem c2_award_table_reads_greedily (input rest : Input) (aws : List Award)
    (h : award_table input = some (rest, aws)) :
    awardsShape input rest aws ∧ 1 ≤ aws.length := by
  unfold award_table at h
  rw [pbind_some] at h
  obtain ⟨mid2, rows, h1, h⟩ := h
  rw [pbind_some] at h
  obtain ⟨mid3, e, h2, h⟩ := h
  rw [psucceed_some] at h
  simp only [Prod.mk.injEq] at h
  obtain ⟨hrest, haws⟩ := h
  subst hrest
  subst haws
  unfold ppreceded at h1
  rw [pbind_some] at h1
  obtain ⟨mid, hdr, h0, h1⟩ := h1
  have hne := (pmany1_some.mp h1).2
  refine ⟨⟨mid, hdr, mid2, rows, e, h0, h1, h2, rfl⟩, ?_⟩
  rw [List.length_map]
  cases rows with
  | nil => exact absurd rfl hne
  | cons a as => simp

/-- Witness for the amended C2 at `c2cexStr` (header declares 2 rows, one row
read). -/
theorem c2_award_table_reads_greedily_witness :
    awardsShape c2cexStr []
      [{ time := 226, name := "Intel".data, reward := { silverlions := 100, research := 0 } }] ∧
    1 ≤ ([{ time := 226, name := "Intel".data,
            reward := { silverlions := 100, research := 0 } }] : List Award).length :=
  c2_award_table_reads_greedily c2cexStr [] _ rfl

/-! ### Claims C3 and C4: the activity/time-played join -/

theorem vehicle_tables_inv {input rest : Input} {vs : List Vehicle}
    (h : vehicle_tables input = some (rest, vs)) :
    ∃ mid arows mid2 e1 mid3 mid4 trows e2,
      ppreceded table_header (pmany1 short_row) input = some (mid, arows) ∧
      lineEnding mid = some (mid2, e1) ∧
      time_played_header mid2 = some (mid3, ()) ∧
      pmany1 time_played_row mid3 = some (mid4, trows) ∧
      lineEnding mid4 = some (rest, e2) ∧
      vs = (arows.zip trows).map (fun p => mkVehicle p.1 p.2) := by
  unfold vehicle_tables at h
  rw [pbind_some] at h
  obtain ⟨mid, arows, h1, h⟩ := h
  rw [pbind_some] at h
  obtain ⟨mid2, e1, h2, h⟩ := h
  rw [pbind_some] at h
  obtain ⟨mid3, u, h3, h⟩ := h
  rw [pbind_some] at h
  obtain ⟨mid4, trows, h4, h⟩ := h
  rw [pbind_some] at h
  obtain ⟨mid5, e2, h5, h⟩ := h
  rw [psucceed_some] at h
  simp only [Prod.mk.injEq] at h
  obtain ⟨hrest, hvs⟩ := h
  subst hrest
  cases u
  exact ⟨mid, arows, mid2, e1, mid3, mid4, trows, e2, h1, h2, h3, h4, h5, hvs⟩

theorem zip_getElem? {α β : Type} :
    ∀ (as : List α) (bs : List β) (i : Nat),
      (as.zip bs)[i]? =
        match as[i]?, bs[i]? with
        | some a, some b => some (a, b)
        | _, _ => none := by
  intro as
  induction as with
  | nil => intro bs i; cases bs <;> cases i <;> simp
  | cons a as ih =>
    intro bs i
    cases bs with
    | nil => cases i <;> simp
    | cons b bs =>
      cases i with
      | zero => simp [List.zip_cons_cons]
      | succ n => simp [List.zip_cons_cons, ih bs n]

/-- The fields of each joined vehicle-summary row, as the code computes them:
row `i`'s name and currency come from row `i` of the activity-time table, and
its research is the u32-wrapping sum of the two tables' research figures at
row `i` (equal to the plain sum whenever that fits in a u32). -/
def joinSpec (input rest : Input) (vs : List Vehicle) : Prop :=
  ∃ mid arows mid2 e1 mid3 mid4 trows e2,
    ppreceded table_header (pmany1 short_row) input = some (mid, arows) ∧
    lineEnding mid = some (mid2, e1) ∧
    time_played_header mid2 = some (mid3, ()) ∧
    pmany1 time_played_row mid3 = some (mid4, trows) ∧
    lineEnding mid4 = some (rest, e2) ∧
    vs = (arows.zip trows).map (fun p => mkVehicle p.1 p.2) ∧
    ∀ (i : Nat) (v : Vehicle), vs[i]? = some v →
      ∃ (a : Nat × List Char × Reward) (t : List Char × Nat × Nat × Nat),
        arows[i]? = some a ∧ trows[i]? = some t ∧
        v.name = a.2.1 ∧ v.reward.silverlions = a.2.2.silverlions ∧
        v.reward.research = (a.2.2.research + t.2.2.2) % 4294967296 ∧
        (a.2.2.research + t.2.2.2 < 4294967296 →
          v.reward.research = a.2.2.research + t.2.2.2) ∧
        v.activity = t.2.1 ∧ v.time_played = t.2.2.1

/-- C3 (amended): in a successful activity/time-played parse, joined row `i`
takes its vehicle name (and currency) from row `i` of the activity-time
table — the time-played row's name is discarded — and its research is the
activity-time row's research plus the time-played row's research, reduced
modulo `2^32` (the u32 wrapping of the addition); the plain sum whenever it
fits in a u32. -/
theorem c3_join_fields (input rest : Input) (vs : List Vehicle)
    (h : vehicle_tables input = some (rest, vs)) : joinSpec input rest vs := by
  obtain ⟨mid, arows, mid2, e1, mid3, mid4, trows, e2, h1, h2, h3, h4, h5, hvs⟩ :=
    vehicle_tables_inv h
  refine ⟨mid, arows, mid2, e1, mid3, mid4, trows, e2, h1, h2, h3, h4, h5, hvs, ?_⟩
  intro i v hv
  rw [hvs, List.getElem?_map] at hv
  cases hz : (arows.zip trows)[i]? with
  | none => rw [hz] at hv; exact absurd hv (by simp)
  | some p =>
    obtain ⟨a, t⟩ := p
    rw [hz] at hv
    simp only [Option.map_some', Option.some.injEq] at hv
    have hm := zip_getElem? arows trows i
    rw [hz] at hm
    cases ha : arows[i]? with
    | none =>
      rw [ha] at hm
      cases hb : trows[i]? <;> rw [hb] at hm <;> simp at hm
    | some a' =>
      cases hb : trows[i]? with
      | none => rw [ha, hb] at hm; simp at hm
      | some t' =>
        rw [ha, hb] at hm
        simp only [Option.some.injEq, Prod.mk.injEq] at hm
        obtain ⟨haa, htt⟩ := hm
        subst haa
        subst htt
        refine ⟨a, t, rfl, rfl, by rw [← hv]; rfl, by rw [← hv]; rfl, by rw [← hv]; rfl,
          ?_, by rw [← hv]; rfl, by rw [← hv]; rfl⟩
        intro hlt
        rw [← hv]
        exact Nat.mod_eq_of_lt hlt

def c3cexStr : Input :=
  ("Activity Time    1    730 SL     68 RP    \n    13:54    Alpha    730 SL     68 RP\n\n" ++
   "Time Played    1               680 RP    \n    Bravo    97%    8:21    680 RP\n\n").data

/-- C3 counterexample: the activity-time row names the vehicle `Alpha` and the
time-played row names it `Bravo`; the parsed summary row carries `Alpha` —
the name is taken from the activity-time table, not (as claimed) from the
time-played table. -/
theorem c3_name_not_from_time_played :
    pmany1 time_played_row ("    Bravo    97%    8:21    680 RP\n\n".data) =
      some (['\n'], [("Bravo".data, 97, 501, 680)]) ∧
    vehicle_tables c3cexStr =
      some ([], [{ name := "Alpha".data, activity := 97, time_played := 501,
                   reward := { silverlions := 730, research := 748 } }]) ∧
    "Alpha".data ≠ "Bravo".data :=
  ⟨rfl, rfl, by decide⟩

/-- Witness for the amended C3 at `c3cexStr` (the two tables name the rows
differently). -/
theorem c3_join_fields_witness :
    joinSpec c3cexStr []
      [{ name := "Alpha".data, activity := 97, time_played := 501,
         reward := { silverlions := 730, research := 748 } }] :=
  c3_join_fields c3cexStr [] _ rfl

/-- Length behaviour of the positional join: the output is as long as the
shorter of the two row lists (Rust `zip` semantics), with the same staging as
`joinSpec`. -/
def joinLen (input rest : Input) (vs : List Vehicle) : Prop :=
  ∃ mid arows mid2 e1 mid3 mid4 trows e2,
    ppreceded table_header (pmany1 short_row) input = some (mid, arows) ∧
    lineEnding mid = some (mid2, e1) ∧
    time_played_header mid2 = some (mid3, ()) ∧
    pmany1 time_played_row mid3 = some (mid4, trows) ∧
    lineEnding mid4 = some (rest, e2) ∧
    vs.length = min arows.length trows.length

/-- C4 (amended): when the activity-time table and the time-played table
parse with different numbers of rows, `vehicle_tables` does not fail: the
join truncates to the shorter table, producing `min` of the two lengths. -/
theorem c4_join_truncates (input rest : Input) (vs : List Vehicle)
    (h : vehicle_tables input = some (rest, vs)) : joinLen input rest vs := by
  obtain ⟨mid, arows, mid2, e1, mid3, mid4, trows, e2, h1, h2, h3, h4, h5, hvs⟩ :=
    vehicle_tables_inv h
  exact ⟨mid, arows, mid2, e1, mid3, mid4, trows, e2, h1, h2, h3, h4, h5,
    by rw [hvs, List.length_map, List.length_zip]⟩

def c4cexStr : Input :=
  ("Activity Time    2    1460 SL    136 RP    \n    13:54    Alpha    730 SL     68 RP\n" ++
   "    13:55    Beta    730 SL     68 RP\n\n" ++
   "Time Played    1               680 RP    \n    Alpha    97%    8:21    680 RP\n\n").data

/-- C4 counterexample: the activity-time table parses with 2 rows and the
time-played table with 1 row, yet `vehicle_tables` succeeds with a single
joined row instead of failing with a length-mismatch error. -/
theorem c4_length_mismatch_not_an_error :
    ppreceded table_header (pmany1 short_row) c4cexStr =
      some (("\nTime Played    1               680 RP    \n" ++
             "    Alpha    97%    8:21    680 RP\n\n").data,
        [(834, "Alpha".data, { silverlions := 730, research := 68 }),
         (835, "Beta".data, { silverlions := 730, research := 68 })]) ∧
    pmany1 time_played_row ("    Alpha    97%    8:21    680 RP\n\n".data) =
      some (['\n'], [("Alpha".data, 97, 501, 680)]) ∧
    vehicle_tables c4cexStr =
      some ([], [{ name := "Alpha".data, activity := 97, time_played := 501,
                   reward := { silverlions := 730, research := 748 } }]) :=
  ⟨rfl, rfl, rfl⟩

/-- Witness for the amended C4 at `c4cexStr` (2 activity rows, 1 time-played
row, output of length `min 2 1 = 1`). -/
theorem c4_join_truncates_witness :
    joinLen c4cexStr []
      [{ name := "Alpha".data, activity := 97, time_played := 501,
         reward := { silverlions := 730, research := 748 } }] :=
  c4_join_truncates c4cexStr [] _ rfl

/-! ### Evaluation lemmas on appended inputs, for the reward grammars -/

theorem firstNot_append {f : Char → Bool} {u : List Char} (rest : List Char)
    (hu : u ≠ []) (h : firstNot f u = true) : firstNot f (u ++ rest) = true := by
  cases u with
  | nil => exact absurd rfl hu
  | cons c cs => exact h

theorem pu32_tag_app {u n rest : List Char}
    (hu : u ≠ []) (hfu : firstNot Char.isDigit u = true)
    (h0 : n ≠ []) (h1 : n.all Char.isDigit = true) (h3 : natOfDigits n < 4294967296) :
    pterminated pu32 (ptag u) (n ++ (u ++ rest)) = some (rest, natOfDigits n) := by
  unfold pterminated
  rw [pbind_eval _ (pu32_app h0 h1 (firstNot_append rest hu hfu) h3)]
  rw [pbind_eval _ (ptag_append u rest)]
  rfl

theorem parse_silverlions_simple_app {n rest : List Char}
    (h0 : n ≠ []) (h1 : n.all Char.isDigit = true) (h3 : natOfDigits n < 4294967296) :
    parse_silverlions_simple (n ++ (" SL".data ++ rest)) = some (rest, natOfDigits n) :=
  pu32_tag_app (by decide) (by decide) h0 h1 h3

theorem parse_research_points_simple_app {n rest : List Char}
    (h0 : n ≠ []) (h1 : n.all Char.isDigit = true) (h3 : natOfDigits n < 4294967296) :
    parse_research_points_simple (n ++ (" RP".data ++ rest)) = some (rest, natOfDigits n) :=
  pu32_tag_app (by decide) (by decide) h0 h1 h3

theorem ptag_cons (c : Char) (r : List Char) : ptag [c] (c :: r) = some (r, [c]) :=
  ptag_append [c] r

/-! ### Claim C5: the itemized reward form yields the trailing total,
with no arithmetic re-verification of the itemized terms -/

/-- The text of a list of itemized bonus terms:
`" + (<label>)<digits>"` for each term. -/
def bonusChunk (terms : List (List Char × List Char)) : List Char :=
  (terms.map (fun t => " + ".data ++ ('(' :: (t.1 ++ (')' :: t.2))))).flatten

/-- A well-formed itemized term: non-empty alphabetic label, non-empty digit
string. -/
def goodTerm (t : List Char × List Char) : Prop :=
  t.1 ≠ [] ∧ t.1.all Char.isAlpha = true ∧ t.2 ≠ [] ∧ t.2.all Char.isDigit = true

theorem ppair_eval {α β : Type} {p : P α} {q : P β} {inp mid mid2 : Input} {a : α} {b : β}
    (hp : p inp = some (mid, a)) (hq : q mid = some (mid2, b)) :
    ppair p q inp = some (mid2, (a, b)) := by
  unfold ppair
  rw [pbind_eval _ hp, pbind_eval _ hq]
  rfl

theorem ppreceded_eval {α β : Type} {p : P α} {q : P β} {inp mid : Input} {a : α}
    {r : Input × β} (hp : p inp = some (mid, a)) (hq : q mid = some r) :
    ppreceded p q inp = some r := by
  unfold ppreceded
  rw [pbind_eval _ hp]
  exact hq

theorem pterminated_eval {α β : Type} {p : P α} {q : P β} {inp mid mid2 : Input} {a : α} {b : β}
    (hp : p inp = some (mid, a)) (hq : q mid = some (mid2, b)) :
    pterminated p q inp = some (mid2, a) := by
  unfold pterminated
  rw [pbind_eval _ hp, pbind_eval _ hq]
  rfl

theorem pdelimited_eval {α β γ : Type} {p : P α} {q : P β} {r : P γ}
    {inp mid mid2 mid3 : Input} {a : α} {b : β} {c : γ}
    (hp : p inp = some (mid, a)) (hq : q mid = some (mid2, b))
    (hr : r mid2 = some (mid3, c)) :
    pdelimited p q r inp = some (mid3, b) := by
  unfold pdelimited
  rw [pbind_eval _ hp, pbind_eval _ hq, pbind_eval _ hr]
  rfl

theorem psepPair_eval {α β γ : Type} {p : P α} {s : P β} {q : P γ}
    {inp mid mid2 mid3 : Input} {a : α} {b : β} {c : γ}
    (hp : p inp = some (mid, a)) (hs : s mid = some (mid2, b))
    (hq : q mid2 = some (mid3, c)) :
    psepPair p s q inp = some (mid3, (a, c)) := by
  unfold psepPair
  rw [pbind_eval _ hp, pbind_eval _ hs, pbind_eval _ hq]
  rfl

theorem pmap_eval {α β : Type} {p : P α} {inp mid : Input} {a : α} (f : α → β)
    (hp : p inp = some (mid, a)) : pmap p f inp = some (mid, f a) := by
  unfold pmap
  rw [pbind_eval _ hp]
  rfl

theorem pvalue_eval {α β : Type} {p : P α} {inp mid : Input} {a : α} (b : β)
    (hp : p inp = some (mid, a)) : pvalue b p inp = some (mid, b) := by
  unfold pvalue pmap
  rw [pbind_eval _ hp]
  rfl

theorem digit1_app {ds rest : List Char}
    (h0 : ds ≠ []) (h1 : ds.all Char.isDigit = true) (h2 : firstNot Char.isDigit rest = true) :
    digit1 (ds ++ rest) = some (rest, ds) :=
  many1Chars_app h0 h1 h2

theorem alpha1_app {ds rest : List Char}
    (h0 : ds ≠ []) (h1 : ds.all Char.isAlpha = true) (h2 : firstNot Char.isAlpha rest = true) :
    alpha1 (ds ++ rest) = some (rest, ds) :=
  many1Chars_app h0 h1 h2

theorem bonus_term_app {label ds : List Char} (rest : List Char)
    (hl : label ≠ []) (hla : label.all Char.isAlpha = true)
    (hd : ds ≠ []) (hda : ds.all Char.isDigit = true)
    (hr : firstNot Char.isDigit rest = true) :
    bonus_term (" + ".data ++ ('(' :: (label ++ (')' :: (ds ++ rest))))) =
      some (rest, ((" + ".data, label), ds)) := by
  unfold bonus_term
  exact ppair_eval
    (ppair_eval (ptag_append (" + ".data) ('(' :: (label ++ (')' :: (ds ++ rest)))))
      (pdelimited_eval (ptag_cons '(' (label ++ (')' :: (ds ++ rest))))
        (alpha1_app hl hla rfl) (ptag_cons ')' (ds ++ rest))))
    (digit1_app hd hda hr)

theorem plusTag_not_prefix {tail : List Char} :
    (" + ".data).isPrefixOf (' ' :: '=' :: tail) = false := rfl

theorem bonus_term_stop {tail : List Char} : bonus_term (' ' :: '=' :: tail) = none := by
  unfold bonus_term ppair
  apply pbind_none
  apply pbind_none
  exact ptag_none plusTag_not_prefix

theorem bonusChunk_cons_firstNot (t : List Char × List Char)
    (ts : List (List Char × List Char)) (x : List Char) :
    firstNot Char.isDigit (bonusChunk (t :: ts) ++ x) = true := rfl

theorem bonus_chunk_many0 :
    ∀ (terms : List (List Char × List Char)) (tail : List Char),
      (∀ t ∈ terms, goodTerm t) →
      pmany0 bonus_term (bonusChunk terms ++ (' ' :: '=' :: tail)) =
        some (' ' :: '=' :: tail, terms.map (fun t => ((" + ".data, t.1), t.2))) := by
  intro terms
  induction terms with
  | nil =>
    intro tail hg
    simp only [bonusChunk, List.map_nil, List.flatten_nil, List.nil_append]
    exact pmany0_fail bonus_term_stop
  | cons t ts ih =>
    intro tail hg
    obtain ⟨hl, hla, hd, hda⟩ := hg t (by simp)
    have hr : firstNot Char.isDigit (bonusChunk ts ++ (' ' :: '=' :: tail)) = true := by
      cases ts with
      | nil => rfl
      | cons t2 ts2 => exact bonusChunk_cons_firstNot t2 ts2 _
    have hstep := bonus_term_app (bonusChunk ts ++ (' ' :: '=' :: tail)) hl hla hd hda hr
    have hin : bonusChunk (t :: ts) ++ (' ' :: '=' :: tail) =
        " + ".data ++
          ('(' :: (t.1 ++ (')' :: (t.2 ++ (bonusChunk ts ++ (' ' :: '=' :: tail)))))) := by
      simp [bonusChunk, List.append_assoc]
    rw [hin]
    have hlen : (bonusChunk ts ++ (' ' :: '=' :: tail)).length <
        (" + ".data ++
          ('(' :: (t.1 ++ (')' :: (t.2 ++ (bonusChunk ts ++ (' ' :: '=' :: tail))))))).length := by
      simp [List.length_append]
      omega
    rw [pmany0_step hstep hlen]
    rw [ih tail (fun x hx => hg x (by simp [hx]))]
    rfl

theorem bonus_chunk_many1 (terms : List (List Char × List Char)) (tail : List Char)
    (hne : terms ≠ []) (hg : ∀ t ∈ terms, goodTerm t) :
    pmany1 bonus_term (bonusChunk terms ++ (' ' :: '=' :: tail)) =
      some (' ' :: '=' :: tail, terms.map (fun t => ((" + ".data, t.1), t.2))) := by
  unfold pmany1
  rw [bonus_chunk_many0 terms tail hg]
  cases terms with
  | nil => exact absurd rfl hne
  | cons t ts => rfl

theorem eqTag_cons (x : List Char) : ptag (" = ".data) (' ' :: '=' :: ' ' :: x) =
    some (x, " = ".data) :=
  ptag_append (" = ".data) x

/-- C5: for every itemized reward text
`"<b> + (<label1>)<k1> [+ ...] = <n> SL"` (and likewise with `RP`), parsing
yields the trailing total `n`; the base and bonus figures are never summed or
compared with `n` — they are quantified freely here. -/
theorem c5_itemized_total_is_authoritative
    (b n rest : List Char) (terms : List (List Char × List Char))
    (hb : b ≠ []) (hba : b.all Char.isDigit = true)
    (ht : terms ≠ []) (hg : ∀ t ∈ terms, goodTerm t)
    (hn : n ≠ []) (hna : n.all Char.isDigit = true)
    (hlt : natOfDigits n < 4294967296) :
    parse_silverlions_complex
        (b ++ (bonusChunk terms ++ (' ' :: '=' :: ' ' :: (n ++ (" SL".data ++ rest))))) =
      some (rest, natOfDigits n) ∧
    parse_research_points_complex
        (b ++ (bonusChunk terms ++ (' ' :: '=' :: ' ' :: (n ++ (" RP".data ++ rest))))) =
      some (rest, natOfDigits n) := by
  obtain ⟨t0, ts0, rfl⟩ : ∃ t0 ts0, terms = t0 :: ts0 := by
    cases terms with
    | nil => exact absurd rfl ht
    | cons t0 ts0 => exact ⟨t0, ts0, rfl⟩
  constructor
  · unfold parse_silverlions_complex
    rw [pbind_eval _ (digit1_app hb hba (bonusChunk_cons_firstNot t0 ts0 _))]
    rw [pbind_eval _ (bonus_chunk_many1 (t0 :: ts0) (' ' :: (n ++ (" SL".data ++ rest)))
      (by simp) hg)]
    exact ppreceded_eval (eqTag_cons (n ++ (" SL".data ++ rest)))
      (parse_silverlions_simple_app hn hna hlt)
  · unfold parse_research_points_complex
    rw [pbind_eval _ (digit1_app hb hba (bonusChunk_cons_firstNot t0 ts0 _))]
    rw [pbind_eval _ (bonus_chunk_many1 (t0 :: ts0) (' ' :: (n ++ (" RP".data ++ rest)))
      (by simp) hg)]
    exact ppreceded_eval (eqTag_cons (n ++ (" RP".data ++ rest)))
      (parse_research_points_simple_app hn hna hlt)

/-- Witness for C5 at itemized texts whose terms visibly do not sum to the
trailing total: `10 + 3 ≠ 999` and `7 + 1 ≠ 5`, yet the totals 999 and 5 are
returned. -/
theorem c5_itemized_total_is_authoritative_witness :
    parse_silverlions_complex ("10 + (PA)3 = 999 SL".data) = some ([], 999) ∧
    parse_research_points_complex ("7 + (Booster)1 = 5 RP".data) = some ([], 5) :=
  ⟨(c5_itemized_total_is_authoritative ("10".data) ("999".data) [] [("PA".data, "3".data)]
      (by decide) (by decide) (by decide)
      (by
        intro t htm
        rw [List.mem_singleton] at htm
        subst htm
        exact ⟨by decide, by decide, by decide, by decide⟩)
      (by decide) (by decide) (by decide)).1,
   (c5_itemized_total_is_authoritative ("7".data) ("5".data) [] [("Booster".data, "1".data)]
      (by decide) (by decide) (by decide)
      (by
        intro t htm
        rw [List.mem_singleton] at htm
        subst htm
        exact ⟨by decide, by decide, by decide, by decide⟩)
      (by decide) (by decide) (by decide)).2⟩

/-! ### Claim C6: simple reward texts -/

theorem digit_not_space {c : Char} (h : c.isDigit = true) : isSpaceChar c = false := by
  unfold isSpaceChar
  have h1 : (c == ' ') = false := by
    cases hb : (c == ' ') with
    | false => rfl
    | true =>
      rw [beq_iff_eq] at hb
      subst hb
      exact absurd h (by decide)
  have h2 : (c == '\t') = false := by
    cases hb : (c == '\t') with
    | false => rfl
    | true =>
      rw [beq_iff_eq] at hb
      subst hb
      exact absurd h (by decide)
  rw [h1, h2]
  rfl

theorem firstNot_space_of_digits {m : List Char} (x : List Char)
    (hm : m ≠ []) (hd : m.all Char.isDigit = true) :
    firstNot isSpaceChar (m ++ x) = true := by
  cases m with
  | nil => exact absurd rfl hm
  | cons c cs =>
    simp only [List.all_cons, Bool.and_eq_true] at hd
    show (!(isSpaceChar c)) = true
    rw [digit_not_space hd.1]
    rfl

theorem pmany0_chars_app {f : Char → Bool} {ws rest : List Char}
    (h1 : ws.all f = true) (h2 : firstNot f rest = true) :
    pmany0 (many1Chars f) (ws ++ rest) = some (rest, if ws = [] then [] else [ws]) := by
  cases ws with
  | nil =>
    simp only [List.nil_append, if_pos rfl]
    exact pmany0_fail (many1Chars_fail h2)
  | cons c cs =>
    rw [if_neg (by simp)]
    have hstep : many1Chars f ((c :: cs) ++ rest) = some (rest, c :: cs) :=
      many1Chars_app (by simp) h1 h2
    have hlen : rest.length < ((c :: cs) ++ rest).length := by
      simp only [List.length_append, List.length_cons]
      omega
    rw [pmany0_step hstep hlen]
    rw [pmany0_fail (many1Chars_fail h2)]
    rfl

theorem row_separator_app {ws rest : List Char}
    (h1 : ws.all isSpaceChar = true) (h2 : firstNot isSpaceChar rest = true) :
    row_separator (INDENT ++ (ws ++ rest)) = some (rest, ()) := by
  unfold row_separator space1
  exact pvalue_eval () (ppair_eval (ptag_append INDENT (ws ++ rest)) (pmany0_chars_app h1 h2))

theorem row_ending_app {ws rest : List Char} (h1 : ws.all isSpaceChar = true) :
    row_ending (ws ++ ('\n' :: rest)) = some (rest, ()) := by
  unfold row_ending space1
  exact pvalue_eval () (ppair_eval (pmany0_chars_app h1 rfl) rfl)

/-- C6: a simple reward text `"<n> SL"` followed by a column separator
(the four-space indent plus optional further whitespace) and `"<m> RP"`
parses to `{currency n, research m}`; `"<n> SL"` with no research shape
following (the remainder does not begin with the indent) parses to
`{currency n, research 0}`. -/
theorem c6_simple_reward_pair :
    (∀ n ws m rest : List Char,
      n ≠ [] → n.all Char.isDigit = true → natOfDigits n < 4294967296 →
      ws.all isSpaceChar = true →
      m ≠ [] → m.all Char.isDigit = true → natOfDigits m < 4294967296 →
      parse_reward (n ++ (" SL".data ++ (INDENT ++ (ws ++ (m ++ (" RP".data ++ rest)))))) =
        some (rest, { silverlions := natOfDigits n, research := natOfDigits m })) ∧
    (∀ n rest : List Char,
      n ≠ [] → n.all Char.isDigit = true → natOfDigits n < 4294967296 →
      INDENT.isPrefixOf rest = false →
      parse_reward (n ++ (" SL".data ++ rest)) =
        some (rest, { silverlions := natOfDigits n, research := 0 })) := by
  constructor
  · intro n ws m rest h0 h1 h2 hws h3 h4 h5
    have hsl : parse_silverlions
        (n ++ (" SL".data ++ (INDENT ++ (ws ++ (m ++ (" RP".data ++ rest)))))) =
        some (INDENT ++ (ws ++ (m ++ (" RP".data ++ rest))), natOfDigits n) :=
      palt_first _ (parse_silverlions_simple_app h0 h1 h2)
    have hrp : parse_research_points (m ++ (" RP".data ++ rest)) = some (rest, natOfDigits m) :=
      palt_first _ (parse_research_points_simple_app h3 h4 h5)
    have hsep : row_separator (INDENT ++ (ws ++ (m ++ (" RP".data ++ rest)))) =
        some (m ++ (" RP".data ++ rest), ()) :=
      row_separator_app hws (firstNot_space_of_digits _ h3 h4)
    have hopt : popt (ppreceded row_separator parse_research_points)
        (INDENT ++ (ws ++ (m ++ (" RP".data ++ rest)))) =
        some (rest, some (natOfDigits m)) :=
      popt_eval_some (ppreceded_eval hsep hrp)
    have hb1 := ppair_eval hsl (pmap_eval (fun rp => rp.getD 0) hopt)
    unfold parse_reward
    exact pmap_eval _ (palt_first _ hb1)
  · intro n rest h0 h1 h2 hpre
    have hsl : parse_silverlions (n ++ (" SL".data ++ rest)) = some (rest, natOfDigits n) :=
      palt_first _ (parse_silverlions_simple_app h0 h1 h2)
    have hfail : ppreceded row_separator parse_research_points rest = none := by
      unfold ppreceded
      apply pbind_none
      unfold row_separator pvalue pmap ppair
      apply pbind_none
      apply pbind_none
      exact ptag_none hpre
    have hopt : popt (ppreceded row_separator parse_research_points) rest =
        some (rest, none) := popt_eval_none hfail
    have hb1 := ppair_eval hsl (pmap_eval (fun rp => rp.getD 0) hopt)
    unfold parse_reward
    exact pmap_eval _ (palt_first _ hb1)

/-- Witness for C6 at the repository's own sample reward texts. -/
theorem c6_simple_reward_pair_witness :
    parse_reward ("5820 SL     413 RP".data) =
      some ([], { silverlions := 5820, research := 413 }) ∧
    parse_reward ("1000 SL".data) = some ([], { silverlions := 1000, research := 0 }) :=
  ⟨c6_simple_reward_pair.1 ("5820".data) [' '] ("413".data) []
      (by decide) (by decide) (by decide) (by decide) (by decide) (by decide) (by decide),
   c6_simple_reward_pair.2 ("1000".data) []
      (by decide) (by decide) (by decide) (by decide)⟩

/-! ### Claim C7: timestamps -/

/-- C7 counterexample: both components of `"4294967295:00"` are accepted by
the nom `u32` parser, but the u32 product `4294967295 * 60` wraps: the
parser yields 4294967236, not `4294967295 * 60 + 0 = 257698037700`. -/
theorem c7_timestamp_overflow_wraps :
    timestamp ("4294967295:00".data) = some ([], 4294967236) ∧
    (4294967236 : Nat) ≠ 4294967295 * 60 + 0 :=
  ⟨rfl, by decide⟩

/-- C7 (amended): `"H:MM"` with digit-string components (each below `2^32`,
as the nom `u32` parser enforces) parses to `(H*60 + MM) % 2^32` — the u32
wrapping value of the total minutes — which equals `H*60 + MM` whenever that
total fits in a u32; in particular `"10:07"` parses to 607. -/
theorem c7_timestamp_minutes (hs ms rest : List Char)
    (hh0 : hs ≠ []) (hh1 : hs.all Char.isDigit = true) (hh2 : natOfDigits hs < 4294967296)
    (hm0 : ms ≠ []) (hm1 : ms.all Char.isDigit = true) (hm2 : natOfDigits ms < 4294967296)
    (hr : firstNot Char.isDigit rest = true) :
    timestamp (hs ++ (':' :: (ms ++ rest))) =
      some (rest, (natOfDigits hs * 60 + natOfDigits ms) % 4294967296) ∧
    (natOfDigits hs * 60 + natOfDigits ms < 4294967296 →
      timestamp (hs ++ (':' :: (ms ++ rest))) =
        some (rest, natOfDigits hs * 60 + natOfDigits ms)) := by
  have h : timestamp (hs ++ (':' :: (ms ++ rest))) =
      some (rest, (natOfDigits hs * 60 + natOfDigits ms) % 4294967296) := by
    unfold timestamp
    exact pmap_eval (fun hm => (hm.1 * 60 + hm.2) % 4294967296)
      (psepPair_eval
        (pu32_app hh0 hh1 (rfl : firstNot Char.isDigit (':' :: (ms ++ rest)) = true) hh2)
        (ptag_cons ':' (ms ++ rest)) (pu32_app hm0 hm1 hr hm2))
  refine ⟨h, fun hlt => ?_⟩
  rw [h, Nat.mod_eq_of_lt hlt]

/-- Witness for the amended C7: `"10:07"` parses to 607 minutes. -/
theorem c7_timestamp_minutes_witness : timestamp ("10:07".data) = some ([], 607) :=
  (c7_timestamp_minutes ("10".data) ("07".data) []
    (by decide) (by decide) (by decide) (by decide) (by decide) (by decide) (by decide)).2
    (by decide)

/-! ### Claim C8: the events list flattens the tables in source order -/

/-- The events of a successful `parse_events` run: the parsed tables' rows
flattened in source order, each event tagged with its table's header name. -/
def eventsSpec (input rest : Input) (evs : List Event) : Prop :=
  ∃ tables, pmany0 table input = some (rest, tables) ∧
    evs = tables.flatMap (fun t => t.rows.map (eventOfRow t.name)) ∧
    ∀ e ∈ evs, ∃ t, t ∈ tables ∧ e.kind = t.name ∧
      ∃ r, r ∈ t.rows ∧ e = eventOfRow t.name r

/-- C8: for every successful `parse_events`, the events list is the
concatenation of the parsed tables' rows in source order and every event's
category tag is its source table's header name. -/
theorem c8_events_in_order (input rest : Input) (evs : List Event)
    (h : parse_events input = some (rest, evs)) : eventsSpec input rest evs := by
  unfold parse_events at h
  rw [pbind_some] at h
  obtain ⟨mid, tables, h1, h⟩ := h
  rw [psucceed_some] at h
  simp only [Prod.mk.injEq] at h
  obtain ⟨hrest, hevs⟩ := h
  subst hrest
  refine ⟨tables, h1, ?_, ?_⟩
  · rw [hevs]
    rfl
  · intro e he
    rw [hevs, List.mem_flatten] at he
    obtain ⟨l, hl, hel⟩ := he
    rw [List.mem_map] at hl
    obtain ⟨t, htt, rfl⟩ := hl
    rw [List.mem_map] at hel
    obtain ⟨r, hrr, rfl⟩ := hel
    exact ⟨t, htt, rfl, r, hrr, rfl⟩

/-- Witness for C8 at a one-table events section. -/
theorem c8_events_in_order_witness :
    eventsSpec c1okStr []
      [{ time := 1, kind := ['A'], vehicle := ['B'], enemy := some ['C'],
         reward := { silverlions := 1, research := 0 } }] :=
  c8_events_in_order c1okStr [] _ rfl

/-! ### Claims C9 and C10: the top-level parse -/

/-- Every stage of the fixed top-level sequence succeeded, in order, and the
report is assembled exactly from the stages' outputs. -/
def reportStages (input rest : Input) (r : BattleReport) : Prop :=
  ∃ i1 rm i2 events i3 awards i4 vehicles i5 rfw i6 oa i7 earned i8 act i9 dmg
    i10 rep i11 pur i12 le i13 vres i14 mres i15 used i16 sid i17 tot,
    result_line input = some (i1, rm) ∧
    parse_events i1 = some (i2, events) ∧
    award_table i2 = some (i3, awards) ∧
    vehicle_tables i3 = some (i4, vehicles) ∧
    popt parse_reward_for_winning i4 = some (i5, rfw) ∧
    parse_other_awards i5 = some (i6, oa) ∧
    parse_earned i6 = some (i7, earned) ∧
    parse_activity i7 = some (i8, act) ∧
    parse_damaged_vehicles i8 = some (i9, dmg) ∧
    parse_automatic_repair i9 = some (i10, rep) ∧
    parse_automatic_purchase i10 = some (i11, pur) ∧
    lineEnding i11 = some (i12, le) ∧
    popt parse_researched_units i12 = some (i13, vres) ∧
    popt parse_researched_modifications i13 = some (i14, mres) ∧
    popt parse_used_items i14 = some (i15, used) ∧
    parse_session_id i15 = some (i16, sid) ∧
    parse_total i16 = some (i17, tot) ∧
    rest = i17 ∧
    r = { session_id := sid, result := rm.1, mission_name := rm.2, events := events,
          awards := awards, reward_for_winning := rfw, other_awards := oa,
          vehicles := vehicles, activity := act, damaged_vehicles := dmg,
          automatic_repair := rep, automatic_purchases := pur,
          vehicle_research := vres.getD [], modification_research := mres.getD [],
          earned_rewards := earned, balance := tot.1 }

theorem battle_report_inv {input rest : Input} {r : BattleReport}
    (h : battle_report input = some (rest, r)) : reportStages input rest r := by
  unfold battle_report at h
  rw [pbind_some] at h
  obtain ⟨i1, rm, h1, h⟩ := h
  rw [pbind_some] at h
  obtain ⟨i2, events, h2, h⟩ := h
  rw [pbind_some] at h
  obtain ⟨i3, awards, h3, h⟩ := h
  rw [pbind_some] at h
  obtain ⟨i4, vehicles, h4, h⟩ := h
  rw [pbind_some] at h
  obtain ⟨i5, rfw, h5, h⟩ := h
  rw [pbind_some] at h
  obtain ⟨i6, oa, h6, h⟩ := h
  rw [pbind_some] at h
  obtain ⟨i7, earned, h7, h⟩ := h
  rw [pbind_some] at h
  obtain ⟨i8, act, h8, h⟩ := h
  rw [pbind_some] at h
  obtain ⟨i9, dmg, h9, h⟩ := h
  rw [pbind_some] at h
  obtain ⟨i10, rep, h10, h⟩ := h
  rw [pbind_some] at h
  obtain ⟨i11, pur, h11, h⟩ := h
  rw [pbind_some] at h
  obtain ⟨i12, le, h12, h⟩ := h
  rw [pbind_some] at h
  obtain ⟨i13, vres, h13, h⟩ := h
  rw [pbind_some] at h
  obtain ⟨i14, mres, h14, h⟩ := h
  rw [pbind_some] at h
  obtain ⟨i15, used, h15, h⟩ := h
  rw [pbind_some] at h
  obtain ⟨i16, sid, h16, h⟩ := h
  rw [pbind_some] at h
  obtain ⟨i17, tot, h17, h⟩ := h
  rw [psucceed_some] at h
  simp only [Prod.mk.injEq] at h
  obtain ⟨hrest, hr⟩ := h
  exact ⟨i1, rm, i2, events, i3, awards, i4, vehicles, i5, rfw, i6, oa, i7, earned,
    i8, act, i9, dmg, i10, rep, i11, pur, i12, le, i13, vres, i14, mres, i15, used,
    i16, sid, i17, tot, h1, h2, h3, h4, h5, h6, h7, h8, h9, h10, h11, h12, h13, h14,
    h15, h16, h17, hrest, hr⟩

/-- C9: the top-level parse is all-or-nothing: it returns `none` (an error),
or a report for which every stage of the fixed section sequence succeeded in
order and whose fields are assembled exactly from those stages — no partial
report is ever produced. -/
theorem c9_parse_all_or_nothing (input : Input) :
    parse input = none ∨
    ∃ rest r, battle_report input = some (rest, r) ∧ parse input = some r ∧
      reportStages input rest r := by
  cases h : battle_report input with
  | none =>
    left
    unfold parse
    rw [h]
    rfl
  | some x =>
    obtain ⟨rest, r⟩ := x
    right
    exact ⟨rest, r, rfl, by unfold parse; rw [h]; rfl, battle_report_inv h⟩

/-- C10: every report produced by a successful parse has a non-empty session
identifier consisting entirely of hexadecimal digits. -/
theorem c10_session_id_hex (input : Input) (r : BattleReport)
    (h : parse input = some r) :
    r.session_id ≠ [] ∧ r.session_id.all isHexChar = true := by
  unfold parse at h
  rw [Option.map_eq_some'] at h
  obtain ⟨x, hbr, hx⟩ := h
  obtain ⟨rest, r'⟩ := x
  dsimp only at hx
  subst hx
  obtain ⟨i1, rm, i2, events, i3, awards, i4, vehicles, i5, rfw, i6, oa, i7, earned,
    i8, act, i9, dmg, i10, rep, i11, pur, i12, le, i13, vres, i14, mres, i15, used,
    i16, sid, i17, tot, h1, h2, h3, h4, h5, h6, h7, h8, h9, h10, h11, h12, h13, h14,
    h15, h16, h17, hrest, hr⟩ := battle_report_inv hbr
  subst hr
  unfold parse_session_id pdelimited at h16
  rw [pbind_some] at h16
  obtain ⟨m1, tg, htg, h16⟩ := h16
  rw [pbind_some] at h16
  obtain ⟨m2, sid2, hhex, h16⟩ := h16
  rw [pbind_some] at h16
  obtain ⟨m3, nl, hnl, h16⟩ := h16
  rw [psucceed_some] at h16
  simp only [Prod.mk.injEq] at h16
  obtain ⟨hmi, hsid⟩ := h16
  subst hsid
  have hinv : sid ≠ [] ∧ sid.all isHexChar = true := many1Chars_inv hhex
  exact hinv

def exInput : Input :=
  ("Victory in the [Domination] Poland (winter) mission!\n\n" ++
   "Awards                                        1     100 SL    \n" ++
   "    3:46    Intelligence    100 SL\n\n" ++
   "Activity Time                                 1    730 SL     68 RP    \n" ++
   "    13:54    Concept 3    730 SL     68 RP\n\n" ++
   "Time Played                                   1               680 RP    \n" ++
   "    Concept 3    97%    8:21    680 RP\n\n" ++
   "Other awards    5295 SL     115 RP    \n\n" ++
   "Earned: 8 SL, 9 CRP\n" ++
   "Activity: 55%\n" ++
   "Damaged Vehicles: Concept 3\n" ++
   "Automatic repair of all vehicles: -100 SL\n" ++
   "Automatic purchasing of ammo and \"Crew Replenishment\": -50 SL\n\n" ++
   "Session: abc123\n" ++
   "Total: 1000 SL, 2 CRP, 300 RP").data

def exReport : BattleReport :=
  { session_id := "abc123".data
    result := BattleResult.win
    mission_name := "[Domination] Poland (winter)".data
    events := []
    awards := [{ time := 226, name := "Intelligence".data,
                 reward := { silverlions := 100, research := 0 } }]
    reward_for_winning := none
    other_awards := { silverlions := 5295, research := 115 }
    vehicles := [{ name := "Concept 3".data, activity := 97, time_played := 501,
                   reward := { silverlions := 730, research := 748 } }]
    activity := 55
    damaged_vehicles := ["Concept 3".data]
    automatic_repair := 100
    automatic_purchases := 50
    vehicle_research := []
    modification_research := []
    earned_rewards := { silverlions := 8, research := 9 }
    balance := { silverlions := 1000, research := 300 } }

/-- Witness for C10 on a complete, successfully parsed report. -/
theorem c10_session_id_hex_witness :
    parse exInput = some exReport ∧
    (exReport.session_id ≠ [] ∧ exReport.session_id.all isHexChar = true) :=
  ⟨rfl, c10_session_id_hex exInput exReport rfl⟩
